import Mathlib

/-!
Verification of the ARIES-style recovery core of the `storemy` storage engine.

The development shallowly embeds, in Lean, the recovery manager
(`pkg/recovery`), the checkpoint subsystem (`pkg/log/wal/checkpoint.go`)
and the WAL truncation logic (`pkg/log/wal/truncate.go`).  Go maps are
modelled as association lists (insertion-ordered; Go map iteration order is
unspecified, so every theorem proved here is either independent of
iteration order or evaluated on inputs where the order is irrelevant).
Go `uint64`/`int64` values are modelled as `Nat`/`Int`; none of the
embedded arithmetic can overflow on the inputs considered.

The WAL writer, log reader and the `primitives` package are not part of
the sources; where their behaviour is needed it is modelled from the
specification and marked `Modelled from the spec:` in the doc string.
-/

namespace StoreMy

/-- Model of `primitives.LSN`, a monotonically increasing 64-bit log sequence number.
LSN 0 means "no record". -/
abbrev LSN := Nat

/-- Model of `primitives.TransactionID.ID()`, the `int64` identity of a transaction. -/
abbrev TxnId := Int

/-- Model of the `primitives.HashCode` of a `PageID`.  The recovery manager keys its
dirty page table by `rec.PageID.HashCode()`; the `primitives` package is
absent from the sources, so pages are identified directly by their stable
hash code (spec: "Supports stable hashing"). -/
abbrev PageHash := Nat

/-- The record kinds of `pkg/log/record` (constants `record.BeginRecord`,
`record.UpdateRecord`, ..., `record.CLRRecord`). -/
inductive RecordType where
  | BeginRecord
  | UpdateRecord
  | InsertRecord
  | DeleteRecord
  | CommitRecord
  | AbortRecord
  | CheckpointBegin
  | CheckpointEnd
  | CLRRecord
deriving DecidableEq

/-- Model of `record.LogRecord`.  The struct itself is absent from the sources; its
fields (`LSN`, `Type`, `TID`, `PrevLSN`, `PageID`, `BeforeImage`,
`AfterImage`, `UndoNextLSN`) are exactly those the recovery manager and
the checkpoint code read and write.  `tid` is `none` for checkpoint
records (nullable in the spec's data model). -/
structure LogRecord where
  lsn : LSN := 0
  type : RecordType
  tid : Option TxnId := none
  prevLSN : LSN := 0
  pageId : PageHash := 0
  beforeImage : List Nat := []
  afterImage : List Nat := []
  undoNextLSN : LSN := 0
deriving DecidableEq

/-- Association-list lookup, the model of Go's `m[k]` read with `ok` flag. -/
def alookup {α β : Type} [DecidableEq α] : List (α × β) → α → Option β
  | [], _ => none
  | (k, v) :: rest, a => if k = a then some v else alookup rest a

/-- Association-list update, the model of Go's `m[k] = v` (overwrites the
existing binding, otherwise appends). -/
def ainsert {α β : Type} [DecidableEq α] : List (α × β) → α → β → List (α × β)
  | [], a, b => [(a, b)]
  | (k, v) :: rest, a, b =>
    if k = a then (a, b) :: rest else (k, v) :: ainsert rest a b

/-- Association-list removal, the model of Go's `delete(m, k)`. -/
def aerase {α β : Type} [DecidableEq α] : List (α × β) → α → List (α × β)
  | [], _ => []
  | (k, v) :: rest, a => if k = a then rest else (k, v) :: aerase rest a

/-- Model of `recovery.TransactionStatus`. -/
inductive TransactionStatus where
  | TxnActive
  | TxnCommitted
  | TxnAborted
deriving DecidableEq

/-- Model of `recovery.TransactionInfo` (the `TID` pointer is modelled by the
transaction's identity value). -/
structure TransactionInfo where
  tid : TxnId
  status : TransactionStatus
  firstLSN : LSN := 0
  lastLSN : LSN := 0
  undoNextLSN : LSN := 0
deriving DecidableEq

/-- Model of `recovery.RecoveryStats`. -/
structure RecoveryStats where
  logRecordsScanned : Nat := 0
  redoOperations : Nat := 0
  undoOperations : Nat := 0
  transactionsRecovered : Nat := 0
  transactionsUndone : Nat := 0
  dirtyPagesFound : Nat := 0
deriving DecidableEq

/-- The mutable fields of `recovery.RecoveryManager` that the algorithms
read and write: the dirty page table (`pageID.HashCode() -> first LSN that
dirtied it`), the transaction table (`tidID -> transaction info`) and the
statistics. -/
structure RMState where
  dirtyPageTable : List (PageHash × LSN) := []
  transactionTable : List (TxnId × TransactionInfo) := []
  stats : RecoveryStats := {}
deriving DecidableEq

/-- Model of `record.TransactionLogInfo`, as revealed by
`record.DeserializeCheckpoint` (fields `FirstLSN`, `LastLSN`,
`UndoNextLSN`). -/
structure TransactionLogInfo where
  firstLSN : LSN := 0
  lastLSN : LSN := 0
  undoNextLSN : LSN := 0
deriving DecidableEq

/-- Model of `record.CheckpointRecord`: the checkpoint sidecar snapshot
(`LSN`, `Timestamp`, `ActiveTxns`, `DirtyPages`). -/
structure CheckpointRecord where
  lsn : LSN := 0
  timestamp : Nat := 0
  activeTxns : List (TxnId × TransactionLogInfo) := []
  dirtyPages : List (PageHash × LSN) := []
deriving DecidableEq

/-- Embedding of `RecoveryManager.processAnalysisRecord`: one step of the Analysis
scan.  Checkpoint records are no-ops; every other record requires a
transaction id; the record kind then drives the transaction-table and
dirty-page-table updates exactly as in the Go switch. -/
def processAnalysisRecord (rm : RMState) (rec : LogRecord) :
    Except String RMState :=
  match rec.type with
  | .CheckpointBegin => .ok rm
  | .CheckpointEnd => .ok rm
  | _ =>
    match rec.tid with
    | none => .error "log record has no transaction ID"
    | some tid =>
      match rec.type with
      | .BeginRecord =>
        .ok { rm with
          transactionTable := ainsert rm.transactionTable tid
            { tid := tid, status := .TxnActive, firstLSN := rec.lsn,
              lastLSN := rec.lsn, undoNextLSN := rec.lsn } }
      | .CommitRecord =>
        match alookup rm.transactionTable tid with
        | some info =>
          .ok { rm with
            transactionTable := ainsert rm.transactionTable tid
              { info with status := .TxnCommitted, lastLSN := rec.lsn } }
        | none =>
          .ok { rm with
            transactionTable := ainsert rm.transactionTable tid
              { tid := tid, status := .TxnCommitted, firstLSN := rec.lsn,
                lastLSN := rec.lsn } }
      | .AbortRecord =>
        match alookup rm.transactionTable tid with
        | some info =>
          .ok { rm with
            transactionTable := ainsert rm.transactionTable tid
              { info with status := .TxnAborted, lastLSN := rec.lsn } }
        | none =>
          .ok { rm with
            transactionTable := ainsert rm.transactionTable tid
              { tid := tid, status := .TxnAborted, firstLSN := rec.lsn,
                lastLSN := rec.lsn } }
      | .UpdateRecord | .InsertRecord | .DeleteRecord =>
        let table :=
          match alookup rm.transactionTable tid with
          | some info =>
            ainsert rm.transactionTable tid
              { info with lastLSN := rec.lsn, undoNextLSN := rec.prevLSN }
          | none =>
            ainsert rm.transactionTable tid
              { tid := tid, status := .TxnActive, firstLSN := rec.lsn,
                lastLSN := rec.lsn, undoNextLSN := rec.prevLSN }
        let dpt :=
          match alookup rm.dirtyPageTable rec.pageId with
          | some _ => rm.dirtyPageTable
          | none => ainsert rm.dirtyPageTable rec.pageId rec.lsn
        .ok { rm with transactionTable := table, dirtyPageTable := dpt }
      | .CLRRecord =>
        let table :=
          match alookup rm.transactionTable tid with
          | some info =>
            ainsert rm.transactionTable tid
              { info with lastLSN := rec.lsn, undoNextLSN := rec.undoNextLSN }
          | none => rm.transactionTable
        let dpt :=
          match alookup rm.dirtyPageTable rec.pageId with
          | some _ => rm.dirtyPageTable
          | none => ainsert rm.dirtyPageTable rec.pageId rec.lsn
        .ok { rm with transactionTable := table, dirtyPageTable := dpt }
      | _ => .ok rm

/-- The main loop of `RecoveryManager.analysisPhase`: records with
`LSN < startLSN` are skipped, every other record is counted in
`LogRecordsScanned` and handed to `processAnalysisRecord`. -/
def analysisScan (rm : RMState) (startLSN : LSN) :
    List LogRecord → Except String RMState
  | [] => .ok rm
  | rec :: rest =>
    if rec.lsn < startLSN then analysisScan rm startLSN rest
    else do
      let rm1 := { rm with stats :=
        { rm.stats with logRecordsScanned := rm.stats.logRecordsScanned + 1 } }
      let rm2 ← processAnalysisRecord rm1 rec
      analysisScan rm2 startLSN rest

/-- The checkpoint-seeding step of `analysisPhase`: the dirty page table
and transaction table are loaded from the sidecar snapshot (every seeded
transaction gets status `TxnActive`).  Copying every entry of a Go map
into a freshly made map yields an equal map, so the copy loops are the
identity on the association-list representation. -/
def seedFromCheckpoint (cp : CheckpointRecord) : RMState where
  dirtyPageTable := cp.dirtyPages
  transactionTable := cp.activeTxns.map fun kv =>
    (kv.1, { tid := kv.1, status := .TxnActive, firstLSN := kv.2.firstLSN,
             lastLSN := kv.2.lastLSN, undoNextLSN := kv.2.undoNextLSN })

/-- Count of `TxnActive` entries, the loop computing
`stats.TransactionsUndone` at the end of Analysis. -/
def countActive (table : List (TxnId × TransactionInfo)) : Nat :=
  (table.filter fun kv => kv.2.status = .TxnActive).length

/-- Embedding of `RecoveryManager.analysisPhase`.  The WAL `Force` call only flushes the
writer's buffer and has no effect on the already-durable record list.  The
internal tables are reset, then seeded from the sidecar when
`GetLastCheckpoint` returns one (the sidecar file's deserialized contents,
passed here explicitly), the scan starts at the checkpoint LSN (else 0),
and the summary statistics are filled in. -/
def analysisPhase (rm0 : RMState) (sidecar : Option CheckpointRecord)
    (log : List LogRecord) : Except String RMState := do
  let init : RMState :=
    match sidecar with
    | some cp => { seedFromCheckpoint cp with stats := rm0.stats }
    | none => { stats := rm0.stats }
  let startLSN : LSN :=
    match sidecar with
    | some cp => cp.lsn
    | none => 0
  let rm ← analysisScan init startLSN log
  .ok { rm with stats :=
    { rm.stats with
      transactionsRecovered := rm.transactionTable.length,
      dirtyPagesFound := rm.dirtyPageTable.length,
      transactionsUndone :=
        rm.stats.transactionsUndone + countActive rm.transactionTable } }

/-- Page contents, as far as the recovery manager can see them: a map
from page hash to page bytes.  `applyRedo`, `undoRecord` and `undoInsert`
are placeholders in the source ("For now, this is a placeholder") and
leave pages untouched; the page store is threaded through so that this
fact is visible in the statements. -/
abbrev PageStore := List (PageHash × List Nat)

/-- Embedding of `RecoveryManager.applyRedo`: the source never touches the page
("In a real implementation, this would ... For now, we'll delegate ...";
the delegation body is empty). -/
def applyRedo (pages : PageStore) (_rec : LogRecord) : PageStore := pages

/-- Embedding of `RecoveryManager.undoRecord`: placeholder, leaves pages untouched. -/
def undoRecordOp (pages : PageStore) (_rec : LogRecord) : PageStore := pages

/-- Embedding of `RecoveryManager.undoInsert`: placeholder, leaves pages untouched. -/
def undoInsertOp (pages : PageStore) (_rec : LogRecord) : PageStore := pages

/-- The value `^uint64(0)`, the initial value of the minimum-LSN fold in
`redoPhase`. -/
def maxUint64 : LSN := 18446744073709551615

/-- The fold in `redoPhase` computing `min(rec_lsn over DPT)`. -/
def minRecLSN (dpt : List (PageHash × LSN)) : LSN :=
  dpt.foldl (fun m kv => if kv.2 < m then kv.2 else m) maxUint64

/-- Embedding of `RecoveryManager.redoRecord`: only `Update`, `Insert` and `CLR`
records are considered (the Go switch omits `Delete`); the record is
redone when its page is in the dirty page table and its LSN is at least
the page's recorded first-dirty LSN.  Besides the state, the list of
records actually handed to `applyRedo` is returned, making the redo set
observable. -/
def redoRecord (rm : RMState) (pages : PageStore) (rec : LogRecord) :
    RMState × PageStore × List LogRecord :=
  match rec.type with
  | .UpdateRecord | .InsertRecord | .CLRRecord =>
    match alookup rm.dirtyPageTable rec.pageId with
    | some firstLSN =>
      if firstLSN ≤ rec.lsn then
        ({ rm with stats :=
           { rm.stats with redoOperations := rm.stats.redoOperations + 1 } },
         applyRedo pages rec, [rec])
      else (rm, pages, [])
    | none => (rm, pages, [])
  | _ => (rm, pages, [])

/-- The scan loop of `redoPhase`: records with `LSN < minLSN` are skipped,
the rest go through `redoRecord`. -/
def redoScan (minLSN : LSN) (rm : RMState) (pages : PageStore) :
    List LogRecord → RMState × PageStore × List LogRecord
  | [] => (rm, pages, [])
  | rec :: rest =>
    if rec.lsn < minLSN then redoScan minLSN rm pages rest
    else
      let (rm1, pages1, a) := redoRecord rm pages rec
      let (rm2, pages2, b) := redoScan minLSN rm1 pages1 rest
      (rm2, pages2, a ++ b)

/-- Embedding of `RecoveryManager.redoPhase`: skipped entirely when the dirty page
table is empty, otherwise a forward scan from `min(rec_lsn over DPT)`. -/
def redoPhase (rm : RMState) (pages : PageStore) (log : List LogRecord) :
    RMState × PageStore × List LogRecord :=
  if rm.dirtyPageTable = [] then (rm, pages, [])
  else redoScan (minRecLSN rm.dirtyPageTable) rm pages log

/-- Modelled from the spec: the WAL writer's durable record stream (the
writer itself is absent from the sources).  LSNs are assigned by a single
writer as consecutive indices; the spec's invariant I3 allows any
"injective mapping fixed at compile time" in place of byte offsets, and
every embedded algorithm uses LSNs only through order and equality. -/
structure WalState where
  records : List LogRecord := []
  nextLSN : LSN := 0
deriving DecidableEq

/-- Modelled from the spec: appending one record to the WAL assigns it the
next LSN and returns that LSN ("All mutation methods return the LSN
assigned to the written record"). -/
def walAppend (w : WalState) (r : LogRecord) : WalState × LSN :=
  ({ records := w.records ++ [{ r with lsn := w.nextLSN }],
     nextLSN := w.nextLSN + 1 }, w.nextLSN)

/-- Modelled from the spec: `log_abort_during_recovery(txn, last_lsn)`,
"a distinct entry point that accepts a synthetic txn state for
Undo-generated records"; it appends an Abort record whose `prev_lsn` is
the supplied last LSN. -/
def logAbortDuringRecovery (w : WalState) (tid : TxnId) (lastLSN : LSN) :
    WalState × LSN :=
  walAppend w { type := .AbortRecord, tid := some tid, prevLSN := lastLSN }

/-- Embedding of `RecoveryManager.writeCLR`: "In a real implementation, this would
serialize and write the CLR to the WAL.  For now, this is a placeholder."
It appends nothing. -/
def writeCLR (w : WalState) (_clr : LogRecord) : WalState := w

/-- The record-lookup map built at the start of `undoTransaction`
(`recordMap[rec.LSN] = rec` over the whole log). -/
def buildRecordMap (log : List LogRecord) : List (LSN × LogRecord) :=
  log.foldl (fun m r => ainsert m r.lsn r) []

/-- The backward chain walk of `undoTransaction`.  Each step looks up the
current LSN, and for the transaction's own `Update`/`Delete` records
counts an undo operation and hands `writeCLR` a CLR whose `after_image`
is the record's before-image and whose `undo_next_lsn` is the record's
`prev_lsn` (for `Insert`, the CLR has no after-image); the walk then
follows `PrevLSN`.  The CLRs handed to `writeCLR` are also accumulated so
that their contents are observable.  The Go loop has no fuel; on any log
whose `prev_lsn` chains strictly descend the walk visits at most one
record per map entry, so the fuel `recordMap.length + 1` used by the
caller never runs out and the embedding agrees with the source there. -/
def undoWalk (recordMap : List (LSN × LogRecord)) (tid : TxnId) :
    Nat → LSN → RMState → WalState → PageStore → List LogRecord →
    RMState × WalState × PageStore × List LogRecord
  | 0, _, rm, w, pages, clrs => (rm, w, pages, clrs)
  | Nat.succ fuel, currentLSN, rm, w, pages, clrs =>
    if currentLSN = 0 then (rm, w, pages, clrs)
    else
      match alookup recordMap currentLSN with
      | none => (rm, w, pages, clrs)
      | some rec =>
        if rec.tid = some tid then
          match rec.type with
          | .UpdateRecord | .DeleteRecord =>
            let pages1 := undoRecordOp pages rec
            let rm1 := { rm with stats :=
              { rm.stats with undoOperations := rm.stats.undoOperations + 1 } }
            let clr : LogRecord :=
              { type := .CLRRecord, tid := rec.tid, pageId := rec.pageId,
                afterImage := rec.beforeImage, undoNextLSN := rec.prevLSN }
            let w1 := writeCLR w clr
            undoWalk recordMap tid fuel rec.prevLSN rm1 w1 pages1 (clrs ++ [clr])
          | .InsertRecord =>
            let pages1 := undoInsertOp pages rec
            let rm1 := { rm with stats :=
              { rm.stats with undoOperations := rm.stats.undoOperations + 1 } }
            let clr : LogRecord :=
              { type := .CLRRecord, tid := rec.tid, pageId := rec.pageId,
                undoNextLSN := rec.prevLSN }
            let w1 := writeCLR w clr
            undoWalk recordMap tid fuel rec.prevLSN rm1 w1 pages1 (clrs ++ [clr])
          | _ => undoWalk recordMap tid fuel rec.prevLSN rm w pages clrs
        else undoWalk recordMap tid fuel rec.prevLSN rm w pages clrs

/-- Embedding of `RecoveryManager.undoTransaction`: builds the record map, walks the
chain backwards from the transaction's `LastLSN`, then logs the abort via
`LogAbortDuringRecovery` with the transaction's original `LastLSN`. -/
def undoTransaction (rm : RMState) (w : WalState) (pages : PageStore)
    (txnInfo : TransactionInfo) :
    RMState × WalState × PageStore × List LogRecord :=
  let recordMap := buildRecordMap w.records
  let res :=
    undoWalk recordMap txnInfo.tid (recordMap.length + 1) txnInfo.lastLSN
      rm w pages []
  let w2 :=
    (logAbortDuringRecovery res.2.1 txnInfo.tid txnInfo.lastLSN).1
  (res.1, w2, res.2.2.1, res.2.2.2)

/-- One iteration of `undoPhase`'s loop over the uncommitted
transactions. -/
def undoAccum (acc : RMState × WalState × PageStore × List LogRecord)
    (kv : TxnId × TransactionInfo) :
    RMState × WalState × PageStore × List LogRecord :=
  let res := undoTransaction acc.1 acc.2.1 acc.2.2.1 kv.2
  (res.1, res.2.1, res.2.2.1, acc.2.2.2 ++ res.2.2.2)

/-- Embedding of `RecoveryManager.undoPhase`: every `TxnActive` entry of the
transaction table is undone.  Go iterates the map in unspecified order;
the association list's insertion order is used here, and the theorems
below do not depend on it. -/
def undoPhase (rm : RMState) (w : WalState) (pages : PageStore) :
    RMState × WalState × PageStore × List LogRecord :=
  let losers := rm.transactionTable.filter fun kv => kv.2.status = .TxnActive
  losers.foldl undoAccum (rm, w, pages, [])

/-- The outcome of one `Recover()` call: the manager state, the WAL after
the Undo phase's appends, the page contents, the records handed to
`applyRedo` during Redo, and the CLR values handed to `writeCLR` during
Undo. -/
structure RecoverOutcome where
  rm : RMState
  wal : WalState
  pages : PageStore
  redoApplied : List LogRecord
  clrsPassed : List LogRecord
deriving DecidableEq

/-- Embedding of `RecoveryManager.Recover`: Analysis, then Redo, then Undo. -/
def recover (rm0 : RMState) (w : WalState) (pages : PageStore)
    (sidecar : Option CheckpointRecord) : Except String RecoverOutcome := do
  let rm1 ← analysisPhase rm0 sidecar w.records
  let r2 := redoPhase rm1 pages w.records
  let r3 := undoPhase r2.1 w r2.2.1
  .ok { rm := r3.1, wal := r3.2.1, pages := r3.2.2.1,
        redoApplied := r2.2.2, clrsPassed := r3.2.2.2 }

/-- The dirty-page-table update shared by Analysis and (in the model) the
writer's runtime table: a data-modification or CLR record with a
transaction id inserts its page with `rec_lsn := lsn` only if the page is
absent. -/
def dptStep (dpt : List (PageHash × LSN)) (rec : LogRecord) :
    List (PageHash × LSN) :=
  match rec.type, rec.tid with
  | .UpdateRecord, some _ | .InsertRecord, some _ | .DeleteRecord, some _
  | .CLRRecord, some _ =>
    match alookup dpt rec.pageId with
    | some _ => dpt
    | none => ainsert dpt rec.pageId rec.lsn
  | _, _ => dpt

/-- Modelled from the spec: the WAL writer's runtime active-transaction
maintenance (the writer is absent from the sources; spec §4.2 keeps "the
runtime ATT and DPT (updated as mutation records are appended so that
checkpoints observe them cheaply)", and the data model's `active_txns`
holds active transactions only, so terminated transactions are removed). -/
def attRuntimeStep (m : List (TxnId × TransactionLogInfo)) (rec : LogRecord) :
    List (TxnId × TransactionLogInfo) :=
  match rec.type, rec.tid with
  | .BeginRecord, some t =>
    ainsert m t { firstLSN := rec.lsn, lastLSN := rec.lsn,
                  undoNextLSN := rec.lsn }
  | .CommitRecord, some t => aerase m t
  | .AbortRecord, some t => aerase m t
  | .UpdateRecord, some t | .InsertRecord, some t | .DeleteRecord, some t =>
    match alookup m t with
    | some i =>
      ainsert m t { i with lastLSN := rec.lsn, undoNextLSN := rec.prevLSN }
    | none =>
      ainsert m t { firstLSN := rec.lsn, lastLSN := rec.lsn,
                    undoNextLSN := rec.prevLSN }
  | .CLRRecord, some t =>
    match alookup m t with
    | some i =>
      ainsert m t { i with lastLSN := rec.lsn, undoNextLSN := rec.undoNextLSN }
    | none => m
  | _, _ => m

/-- Modelled from the spec: the writer's runtime snapshot state that
`WriteCheckpoint` copies under its read lock (`w.activeTxns` and
`w.dirtyPages`). -/
structure WalRuntime where
  activeTxns : List (TxnId × TransactionLogInfo) := []
  dirtyPages : List (PageHash × LSN) := []
deriving DecidableEq

/-- One appended record's effect on the writer's runtime tables. -/
def walRuntimeApply (s : WalRuntime) (rec : LogRecord) : WalRuntime where
  activeTxns := attRuntimeStep s.activeTxns rec
  dirtyPages := dptStep s.dirtyPages rec

/-- The writer's runtime tables after appending a list of records. -/
def runtimeAfter (log : List LogRecord) : WalRuntime :=
  log.foldl walRuntimeApply {}

/-- The checkpoint snapshot `WriteCheckpoint` persists for a given log
prefix: `NewCheckpointRecord` built from the runtime tables, with
`checkpointRec.LSN = beginLSN` (checkpoint.go line 55). -/
def checkpointOf (pfx : List LogRecord) (beginLSN : LSN) : CheckpointRecord where
  lsn := beginLSN
  activeTxns := (runtimeAfter pfx).activeTxns
  dirtyPages := (runtimeAfter pfx).dirtyPages

/-- The whole WAL writer object as `WriteCheckpoint` sees it: the durable
record stream, the runtime tables and the checkpoint sidecar file
(holding, when present, the deserialized form of its contents; the
write-temp-then-rename of `writeCheckpointFile` atomically replaces it). -/
structure WalFull where
  wal : WalState := {}
  runtime : WalRuntime := {}
  sidecar : Option CheckpointRecord := none
deriving DecidableEq

/-- Embedding of `WAL.writeCheckpointBegin`: appends a CheckpointBegin record (no
transaction id, `prevLSN` 0) and returns its LSN. -/
def writeCheckpointBegin (w : WalFull) : WalFull × LSN :=
  let (wal1, lsn) := walAppend w.wal { type := .CheckpointBegin }
  ({ w with wal := wal1 }, lsn)

/-- Embedding of `WAL.writeCheckpointEnd`: appends a CheckpointEnd record whose
`PrevLSN` references the CheckpointBegin LSN, and returns its LSN. -/
def writeCheckpointEnd (w : WalFull) (beginLSN : LSN) : WalFull × LSN :=
  let (wal1, lsn) := walAppend w.wal
    { type := .CheckpointEnd, prevLSN := beginLSN }
  ({ w with wal := wal1 }, lsn)

/-- Embedding of `WAL.WriteCheckpoint`: CheckpointBegin, snapshot of the runtime
tables, sidecar write (temp-then-rename), CheckpointEnd, force.  Returns
the LSN of the CheckpointEnd record.  The snapshot record's `LSN` field
is set to `beginLSN` before serialization. -/
def writeCheckpoint (w : WalFull) : WalFull × LSN :=
  let (w1, beginLSN) := writeCheckpointBegin w
  let cp : CheckpointRecord :=
    { lsn := beginLSN, activeTxns := w1.runtime.activeTxns,
      dirtyPages := w1.runtime.dirtyPages }
  let w2 := { w1 with sidecar := some cp }
  let (w3, endLSN) := writeCheckpointEnd w2 beginLSN
  (w3, endLSN)

/-- Model of `wal.TruncateConfig`. -/
structure TruncateConfig where
  enabled : Bool
  minWALSizeForTruncation : Nat
  minRetainedSize : Nat
deriving DecidableEq

/-- Model of `wal.DefaultTruncateConfig`. -/
def DefaultTruncateConfig : TruncateConfig where
  enabled := true
  minWALSizeForTruncation := 5 * 1024 * 1024
  minRetainedSize := 1 * 1024 * 1024

/-- The `safetyMargin` constant of `calculateTruncationPoint` (1024). -/
def safetyMargin : LSN := 1024

/-- Embedding of `WAL.calculateTruncationPoint`: the minimum of the checkpoint LSN,
every active transaction's `FirstLSN` and every dirty page's LSN, minus
the safety margin (floored at 0). -/
def calculateTruncationPoint (cp : CheckpointRecord) : LSN :=
  let m1 := cp.activeTxns.foldl
    (fun m kv => if kv.2.firstLSN < m then kv.2.firstLSN else m) cp.lsn
  let m2 := cp.dirtyPages.foldl
    (fun m kv => if kv.2 < m then kv.2 else m) m1
  if safetyMargin < m2 then m2 - safetyMargin else 0

/-- The decision logic of `WAL.TruncateWAL`: the gates it applies before
performing truncation, returning the LSN actually truncated at (`none`
when truncation is skipped).  In order: the enabled flag, the minimum WAL
size, the zero check on the calculated point, the bump of the truncation
point up to `MinRetainedSize`, and the 10%-of-file savings check. -/
def truncateDecision (currentSize : Nat) (cp : CheckpointRecord)
    (config : TruncateConfig) : Option LSN :=
  if !config.enabled then none
  else if currentSize < config.minWALSizeForTruncation then none
  else
    let t0 := calculateTruncationPoint cp
    if t0 = 0 then none
    else
      let t1 := if t0 < config.minRetainedSize then config.minRetainedSize
                else t0
      if t1 < currentSize / 10 then none else some t1

/-- The record filter of `WAL.copyWALRecords`: records with
`LSN < startLSN` are dropped, the rest are copied to the new WAL file. -/
def keptRecords (log : List LogRecord) (startLSN : LSN) : List LogRecord :=
  log.filter fun r => startLSN ≤ r.lsn

/-- The recovery manager's tables live behind Go map references; reads
and writes through a reference reach the shared map object.  `RMHeap`
makes that explicit: map objects live in stores indexed by reference, and
the manager holds references to its internal tables.  `GetDirtyPageTable`
and `GetTransactionTable` allocate fresh objects (`result := make(...)`)
and copy every entry into them, so mutations through the returned
reference cannot reach the internal object. -/
structure RMHeap where
  dptObjects : List (List (PageHash × LSN))
  attObjects : List (List (TxnId × TransactionInfo))
  dptRef : Nat
  attRef : Nat

/-- Dereference a dirty-page-table map reference. -/
def readDptObject (h : RMHeap) (r : Nat) : List (PageHash × LSN) :=
  h.dptObjects.getD r []

/-- Dereference a transaction-table map reference. -/
def readAttObject (h : RMHeap) (r : Nat) : List (TxnId × TransactionInfo) :=
  h.attObjects.getD r []

/-- Embedding of `RecoveryManager.GetDirtyPageTable`: `result := make(...)` allocates
a fresh map object, the loop copies every entry of the internal table
into it, and the fresh reference is returned. -/
def getDirtyPageTable (h : RMHeap) : RMHeap × Nat :=
  let copied := readDptObject h h.dptRef
  ({ h with dptObjects := h.dptObjects ++ [copied] }, h.dptObjects.length)

/-- Embedding of `RecoveryManager.GetTransactionTable`: a fresh map object is
allocated and each entry is deep-copied into a freshly allocated
`TransactionInfo` value. -/
def getTransactionTable (h : RMHeap) : RMHeap × Nat :=
  let copied := (readAttObject h h.attRef).map fun kv =>
    (kv.1, { tid := kv.2.tid, status := kv.2.status,
             firstLSN := kv.2.firstLSN, lastLSN := kv.2.lastLSN,
             undoNextLSN := kv.2.undoNextLSN : TransactionInfo })
  ({ h with attObjects := h.attObjects ++ [copied] }, h.attObjects.length)

/-- An arbitrary mutation of the map object behind a dirty-page-table
reference (any combination of Go map writes and deletes on it). -/
def mutateDptObject (h : RMHeap) (r : Nat)
    (f : List (PageHash × LSN) → List (PageHash × LSN)) : RMHeap :=
  { h with dptObjects := h.dptObjects.set r (f (readDptObject h r)) }

/-- An arbitrary mutation of the map object behind a transaction-table
reference. -/
def mutateAttObject (h : RMHeap) (r : Nat)
    (f : List (TxnId × TransactionInfo) → List (TxnId × TransactionInfo)) :
    RMHeap :=
  { h with attObjects := h.attObjects.set r (f (readAttObject h r)) }

instance {ε α : Type} [DecidableEq ε] [DecidableEq α] :
    DecidableEq (Except ε α)
  | .error e, .error f =>
    if h : e = f then .isTrue (by rw [h])
    else .isFalse fun hc => h (Except.error.inj hc)
  | .error _, .ok _ => .isFalse fun hc => Except.noConfusion hc
  | .ok _, .error _ => .isFalse fun hc => Except.noConfusion hc
  | .ok x, .ok y =>
    if h : x = y then .isTrue (by rw [h])
    else .isFalse fun hc => h (Except.ok.inj hc)

/-- Whether a record kind is one of the data-modification or CLR kinds
that Analysis and Redo treat as page-dirtying. -/
def isDataOrCLR (r : LogRecord) : Bool :=
  match r.type with
  | .UpdateRecord | .InsertRecord | .DeleteRecord | .CLRRecord => true
  | _ => false

/-- Whether a record is a data-modification or CLR record on page `p`
carrying a transaction id — exactly the condition under which `dptStep`
touches page `p`. -/
def touches (p : PageHash) (r : LogRecord) : Bool :=
  isDataOrCLR r && r.tid.isSome && decide (r.pageId = p)

/-- The condition under which `processAnalysisRecord` succeeds: checkpoint
records always do, all others need a transaction id. -/
def okCond (r : LogRecord) : Prop :=
  r.type = .CheckpointBegin ∨ r.type = .CheckpointEnd ∨ r.tid ≠ none

instance (r : LogRecord) : Decidable (okCond r) := by
  unfold okCond; infer_instance

/-- The WAL, as left on disk by the crash considered in the boundary
scenarios below: one transaction that began and wrote one update, with no
commit. -/
def loserWal : WalState where
  records := [
    { lsn := 0, type := .BeginRecord, tid := some 1 },
    { lsn := 1, type := .UpdateRecord, tid := some 1, prevLSN := 0,
      pageId := 5, beforeImage := [65], afterImage := [66] }]
  nextLSN := 2

/-- A crashed WAL whose only data record is a Delete of page 5 by a
committed transaction. -/
def deleteWal : WalState where
  records := [
    { lsn := 0, type := .BeginRecord, tid := some 1 },
    { lsn := 1, type := .DeleteRecord, tid := some 1, prevLSN := 0,
      pageId := 5, beforeImage := [65] },
    { lsn := 2, type := .CommitRecord, tid := some 1, prevLSN := 1 }]
  nextLSN := 3

/-- The log `deleteWal` with the Delete replaced by an Update of the same page. -/
def updateWal : WalState where
  records := [
    { lsn := 0, type := .BeginRecord, tid := some 1 },
    { lsn := 1, type := .UpdateRecord, tid := some 1, prevLSN := 0,
      pageId := 5, beforeImage := [65], afterImage := [66] },
    { lsn := 2, type := .CommitRecord, tid := some 1, prevLSN := 1 }]
  nextLSN := 3

/-- A log prefix in which transaction 1 begins, updates page 7 and
commits, entirely before a checkpoint taken at LSN 3. -/
def committedSegment : List LogRecord := [
  { lsn := 0, type := .BeginRecord, tid := some 1 },
  { lsn := 1, type := .UpdateRecord, tid := some 1, prevLSN := 0,
    pageId := 7, beforeImage := [65], afterImage := [66] },
  { lsn := 2, type := .CommitRecord, tid := some 1, prevLSN := 1 }]

/-- The checkpoint records paired with `committedSegment`. -/
def checkpointSuffix : List LogRecord := [
  { lsn := 3, type := .CheckpointBegin },
  { lsn := 4, type := .CheckpointEnd, prevLSN := 3 }]

/-- A nonempty sidecar snapshot used to probe Analysis on a log that
contains no CheckpointEnd record at all. -/
def danglingSidecar : CheckpointRecord where
  lsn := 100
  activeTxns := [(7, { firstLSN := 10, lastLSN := 20, undoNextLSN := 30 })]
  dirtyPages := [(9, 50)]

/-- A checkpoint snapshot with one active transaction whose first record
is at LSN 2000; its safe truncation point is 2000 - 1024 = 976. -/
def smallSafePointCheckpoint : CheckpointRecord where
  lsn := 3000
  activeTxns := [(1, { firstLSN := 2000, lastLSN := 2500, undoNextLSN := 2400 })]
  dirtyPages := []

/-- C1.  The code does not treat Delete records as redo candidates: on
`deleteWal` the Delete of page 5 at LSN 1 passes both dirty-page-table
filters (the page is in the DPT with rec_lsn 1 and 1 ≥ 1), yet Redo
applies nothing and counts nothing, while the identical log with an
Update in place of the Delete yields one redo operation.  `redoRecord`'s
switch lists only Update, Insert and CLR. -/
theorem delete_records_not_redone :
    (recover {} deleteWal [] none).map
        (fun r => (r.redoApplied, r.rm.stats.redoOperations,
                   alookup r.rm.dirtyPageTable 5))
      = .ok ([], 0, some 1)
    ∧ (recover {} updateWal [] none).map
        (fun r => r.rm.stats.redoOperations) = .ok 1 := by
  decide

/-- C2.  On `loserWal` the Undo phase performs one undo operation for the
loser's Update, and the CLR value it builds does carry
`after_image = before-image` and `undo_next_lsn = R.prev_lsn`; but its
`prev_lsn` is left 0 while the transaction's `last_lsn` is 1, and
`writeCLR` appends nothing: the WAL after recovery contains no CLR record
at all (only Begin, Update and the final Abort). -/
theorem undo_clr_never_appended :
    (recover {} loserWal [] none).map
        (fun r => r.rm.stats.undoOperations) = .ok 1
    ∧ (recover {} loserWal [] none).map
        (fun r => r.wal.records.filter (fun x => decide (x.type = .CLRRecord)))
      = .ok []
    ∧ (recover {} loserWal [] none).map
        (fun r => r.clrsPassed.map
          (fun c => (c.prevLSN, c.afterImage, c.undoNextLSN)))
      = .ok [(0, [65], 0)]
    ∧ (recover {} loserWal [] none).map
        (fun r => r.rm.transactionTable.map (fun kv => kv.2.lastLSN))
      = .ok [1]
    ∧ (recover {} loserWal [] none).map
        (fun r => r.wal.records.map (fun x => x.type))
      = .ok [.BeginRecord, .UpdateRecord, .AbortRecord] := by
  refine ⟨by decide, by decide, by decide, by decide, by decide⟩

/-- C9.  With the default configuration and a 6 MiB WAL, the safe
truncation point computed from `smallSafePointCheckpoint` is
min(3000, 2000) - 1024 = 976, but `TruncateWAL` bumps the truncation
point up to `MinRetainedSize` = 1048576 and truncates there, so the
active transaction's first record at LSN 2000 — at a position past the
safe point — is dropped by the copy filter, contradicting the function's
own safety rules. -/
theorem truncation_overshoots_safe_point :
    calculateTruncationPoint smallSafePointCheckpoint = 976
    ∧ truncateDecision 6291456 smallSafePointCheckpoint DefaultTruncateConfig
        = some 1048576
    ∧ keptRecords
        [{ lsn := 2000, type := .UpdateRecord, tid := some 1, pageId := 3 }]
        1048576 = []
    ∧ 976 ≤ 2000 := by
  decide

/-- C7 counterexample.  On a fresh WAL, `WriteCheckpoint` stores 0 (the
CheckpointBegin LSN) as the sidecar's `checkpoint_lsn` while returning 1
(the CheckpointEnd LSN): the stored LSN does not equal the returned
one. -/
theorem checkpoint_sidecar_lsn_not_end :
    ¬ ((writeCheckpoint {}).1.sidecar.map (fun cp => cp.lsn)
        = some (writeCheckpoint {}).2) := by
  decide

/-- C7 (amended).  The `checkpoint_lsn` persisted in the sidecar equals
the LSN of the paired CheckpointBegin record — the record appended first,
whose LSN is the write position at entry — and is strictly less than the
CheckpointEnd LSN that `WriteCheckpoint` returns; the CheckpointEnd
record references it through `prev_lsn`. -/
theorem checkpoint_sidecar_lsn_is_begin (w : WalFull) :
    ∃ cp, (writeCheckpoint w).1.sidecar = some cp
      ∧ cp.lsn = w.wal.nextLSN
      ∧ cp.lsn < (writeCheckpoint w).2
      ∧ (writeCheckpoint w).2 = w.wal.nextLSN + 1
      ∧ (writeCheckpoint w).1.wal.records
          = w.wal.records
            ++ [{ lsn := cp.lsn, type := .CheckpointBegin },
                { lsn := (writeCheckpoint w).2, type := .CheckpointEnd,
                  prevLSN := cp.lsn }] := by
  refine ⟨{ lsn := w.wal.nextLSN, activeTxns := w.runtime.activeTxns,
            dirtyPages := w.runtime.dirtyPages }, rfl, rfl,
          Nat.lt_succ_self _, rfl, ?_⟩
  simp [writeCheckpoint, writeCheckpointBegin, writeCheckpointEnd, walAppend]

/-- C3 counterexample.  On `loserWal` with no sidecar, the transaction
table rebuilt by a second `Recover` differs from the one left by the
first: the first run leaves the loser `TxnActive` (and appends its Abort
record), the second classifies it `TxnAborted` with a new `last_lsn`. -/
theorem recover_twice_rebuilds_different_att :
    ((recover {} loserWal [] none).bind fun r1 =>
      (recover r1.rm r1.wal r1.pages none).map fun r2 =>
        decide (r2.rm.transactionTable = r1.rm.transactionTable))
      = .ok false := by
  decide

/-- C4 counterexample.  Transaction 1 begins, updates page 7 and commits
entirely before the checkpoint at LSN 3.  The from-zero Analysis keeps it
in the ATT as `TxnCommitted`; the checkpoint-seeded Analysis never sees
it (the sidecar's `active_txns` is empty and its records lie below the
scan start), so the two runs produce different transaction tables. -/
theorem seeded_att_misses_committed_txn :
    (analysisPhase {} (some (checkpointOf committedSegment 3))
        (committedSegment ++ checkpointSuffix)).map
      (fun st => st.transactionTable) = .ok []
    ∧ (analysisPhase {} none (committedSegment ++ checkpointSuffix)).map
        (fun st => st.transactionTable.map fun kv => (kv.1, kv.2.status))
      = .ok [(1, .TxnCommitted)] := by
  refine ⟨by decide, by decide⟩

/-- C8 counterexample.  With `danglingSidecar` present and a log that
contains no CheckpointEnd record at all (here the empty log), Analysis
still seeds both tables from the sidecar and scans from its LSN, instead
of ignoring it and scanning from LSN 0: the seeded run's tables differ
from the from-zero run's empty tables. -/
theorem sidecar_not_ignored_without_checkpoint_end :
    (analysisPhase {} (some danglingSidecar) []).map
      (fun st => (st.dirtyPageTable, st.transactionTable.map fun kv => kv.1))
      = .ok ([(9, 50)], [7])
    ∧ (analysisPhase {} none ([] : List LogRecord)).map
        (fun st => (st.dirtyPageTable, st.transactionTable.map fun kv => kv.1))
      = .ok ([], []) := by
  refine ⟨by decide, by decide⟩

theorem alookup_ainsert {α β : Type} [DecidableEq α]
    (m : List (α × β)) (k a : α) (v : β) :
    alookup (ainsert m k v) a = if k = a then some v else alookup m a := by
  induction m with
  | nil => simp [ainsert, alookup]
  | cons kv rest ih =>
    obtain ⟨k1, v1⟩ := kv
    by_cases h1 : k1 = k
    · subst h1
      by_cases h2 : k1 = a <;> simp [ainsert, alookup, h2]
    · by_cases h2 : k1 = a
      · subst h2
        have hk : ¬ k = k1 := fun hc => h1 hc.symm
        simp [ainsert, alookup, h1, hk, ih]
      · simp [ainsert, alookup, h1, h2, ih]

theorem dptStep_lookup_some (dpt : List (PageHash × LSN)) (rec : LogRecord)
    (p : PageHash) (v : LSN) (h : alookup dpt p = some v) :
    alookup (dptStep dpt rec) p = some v := by
  obtain ⟨lsn, ty, tid, prev, page, bi, ai, un⟩ := rec
  cases ty <;> cases tid <;> simp only [dptStep] <;> try exact h
  all_goals
    rcases hl : alookup dpt page with _ | w
    all_goals simp only [hl]
    · rw [alookup_ainsert]
      by_cases hpp : page = p
      · subst hpp; rw [h] at hl; cases hl
      · simp [hpp, h]
    · exact h

theorem dptStep_lookup_none_touch (dpt : List (PageHash × LSN))
    (rec : LogRecord) (p : PageHash)
    (ht : touches p rec = true) (h : alookup dpt p = none) :
    alookup (dptStep dpt rec) p = some rec.lsn := by
  obtain ⟨lsn, ty, tid, prev, page, bi, ai, un⟩ := rec
  cases ty <;> cases tid <;> simp only [touches, isDataOrCLR] at ht <;>
    try simp at ht
  all_goals
    subst ht
    simp [dptStep, h, alookup_ainsert]

theorem dptStep_lookup_none_not_touch (dpt : List (PageHash × LSN))
    (rec : LogRecord) (p : PageHash)
    (ht : touches p rec = false) (h : alookup dpt p = none) :
    alookup (dptStep dpt rec) p = none := by
  obtain ⟨lsn, ty, tid, prev, page, bi, ai, un⟩ := rec
  cases ty <;> cases tid <;> simp only [dptStep] <;> try exact h
  all_goals
    simp only [touches, isDataOrCLR] at ht
    simp at ht
    rcases hl : alookup dpt page with _ | w
    all_goals simp only [hl]
    · rw [alookup_ainsert]
      simp [ht, h]
    · exact h

theorem foldl_dptStep_lookup_some (l : List LogRecord)
    (dpt : List (PageHash × LSN)) (p : PageHash) (v : LSN)
    (h : alookup dpt p = some v) :
    alookup (l.foldl dptStep dpt) p = some v := by
  induction l generalizing dpt with
  | nil => exact h
  | cons r rest ih => exact ih _ (dptStep_lookup_some dpt r p v h)

theorem foldl_dptStep_lookup_none (l : List LogRecord)
    (dpt : List (PageHash × LSN)) (p : PageHash)
    (h : alookup dpt p = none) :
    alookup (l.foldl dptStep dpt) p
      = (l.find? (touches p)).map fun r => r.lsn := by
  induction l generalizing dpt with
  | nil =>
    simp only [List.foldl_nil, List.find?_nil, Option.map_none']
    exact h
  | cons r rest ih =>
    rcases ht : touches p r with _ | _
    · rw [List.foldl_cons, List.find?_cons_of_neg _ (by simp [ht])]
      exact ih _ (dptStep_lookup_none_not_touch dpt r p ht h)
    · rw [List.foldl_cons, List.find?_cons_of_pos _ ht]
      rw [Option.map_some']
      exact foldl_dptStep_lookup_some rest _ p r.lsn
        (dptStep_lookup_none_touch dpt r p ht h)

theorem par_ok_dpt (rm : RMState) (rec : LogRecord) (rm' : RMState)
    (h : processAnalysisRecord rm rec = .ok rm') :
    rm'.dirtyPageTable = dptStep rm.dirtyPageTable rec := by
  obtain ⟨lsn, ty, tid, prev, page, bi, ai, un⟩ := rec
  cases ty <;> cases tid <;>
    simp only [processAnalysisRecord] at h <;>
    try exact Except.noConfusion h
  all_goals try split at h
  all_goals
    rw [Except.ok.injEq] at h
    subst h
    simp_all [dptStep]

theorem par_error (rm : RMState) (rec : LogRecord) (h : ¬ okCond rec) :
    processAnalysisRecord rm rec
      = .error "log record has no transaction ID" := by
  obtain ⟨lsn, ty, tid, prev, page, bi, ai, un⟩ := rec
  cases ty <;> cases tid <;> simp [okCond] at h <;>
    simp [processAnalysisRecord]

theorem par_ok_of_okCond (rm : RMState) (rec : LogRecord) (h : okCond rec) :
    ∃ rm', processAnalysisRecord rm rec = .ok rm' := by
  obtain ⟨lsn, ty, tid, prev, page, bi, ai, un⟩ := rec
  rcases tid with _ | t
  · simp only [okCond] at h
    rcases h with h | h | h
    · subst h; exact ⟨_, rfl⟩
    · subst h; exact ⟨_, rfl⟩
    · exact absurd rfl h
  · cases ty <;> simp only [processAnalysisRecord] <;>
      first
      | exact ⟨_, rfl⟩
      | (cases hX : alookup rm.transactionTable t <;> simp [hX])

theorem par_okCond_of_ok (rm : RMState) (rec : LogRecord) (rm' : RMState)
    (h : processAnalysisRecord rm rec = .ok rm') : okCond rec := by
  by_contra hn
  rw [par_error rm rec hn] at h
  cases h

theorem bind_ok_elim {α β : Type} (x : α) (f : α → Except String β) :
    (Except.ok x >>= f) = f x := rfl

theorem bind_error_elim {α β : Type} (e : String)
    (f : α → Except String β) :
    ((Except.error e : Except String α) >>= f) = Except.error e := rfl

theorem except_bind_ok {α β : Type} (x : α) (f : α → Except String β) :
    (Except.ok x).bind f = f x := rfl

theorem except_bind_error {α β : Type} (e : String)
    (f : α → Except String β) :
    (Except.error e : Except String α).bind f = Except.error e := rfl

theorem analysisScan_append (rm : RMState) (start : LSN)
    (l1 l2 : List LogRecord) :
    analysisScan rm start (l1 ++ l2)
      = (analysisScan rm start l1).bind
          (fun rm' => analysisScan rm' start l2) := by
  induction l1 generalizing rm with
  | nil => simp only [List.nil_append, analysisScan, except_bind_ok]
  | cons r rest ih =>
    by_cases hskip : r.lsn < start
    · simp only [List.cons_append, analysisScan, if_pos hskip]
      exact ih rm
    · simp only [List.cons_append, analysisScan, if_neg hskip]
      cases hp : processAnalysisRecord
          { rm with stats :=
            { rm.stats with
              logRecordsScanned := rm.stats.logRecordsScanned + 1 } } r with
      | error e => simp [hp, bind_ok_elim, bind_error_elim, except_bind_ok, except_bind_error]
      | ok x => simp [hp, bind_ok_elim, bind_error_elim, except_bind_ok, except_bind_error, ih x]

theorem analysisScan_skips_all (rm : RMState) (start : LSN)
    (l : List LogRecord) (h : ∀ r ∈ l, r.lsn < start) :
    analysisScan rm start l = .ok rm := by
  induction l with
  | nil => rfl
  | cons r rest ih =>
    have hr : r.lsn < start := h r (by simp)
    simp only [analysisScan, if_pos hr]
    exact ih fun x hx => h x (by simp [hx])

theorem analysisScan_start_zero (rm : RMState) (start : LSN)
    (l : List LogRecord) (h : ∀ r ∈ l, start ≤ r.lsn) :
    analysisScan rm start l = analysisScan rm 0 l := by
  induction l generalizing rm with
  | nil => rfl
  | cons r rest ih =>
    have hr : ¬ r.lsn < start := not_lt.mpr (h r (by simp))
    simp only [analysisScan, if_neg hr, if_neg (Nat.not_lt_zero r.lsn)]
    have hrest : ∀ x ∈ rest, start ≤ x.lsn := fun x hx => h x (by simp [hx])
    cases hp : processAnalysisRecord
        { rm with stats :=
          { rm.stats with
            logRecordsScanned := rm.stats.logRecordsScanned + 1 } } r with
    | error e => simp [hp, bind_ok_elim, bind_error_elim, except_bind_ok, except_bind_error]
    | ok x => simp [hp, bind_ok_elim, bind_error_elim, except_bind_ok, except_bind_error, ih x hrest]

theorem analysisScan_ok_dpt (start : LSN) (l : List LogRecord)
    (rm rm' : RMState) (h : analysisScan rm start l = .ok rm') :
    rm'.dirtyPageTable
      = (l.filter fun r => !decide (r.lsn < start)).foldl dptStep
          rm.dirtyPageTable := by
  induction l generalizing rm with
  | nil =>
    simp only [analysisScan] at h
    rw [Except.ok.injEq] at h
    subst h
    rfl
  | cons r rest ih =>
    by_cases hskip : r.lsn < start
    · simp only [analysisScan, if_pos hskip] at h
      rw [List.filter_cons_of_neg (by simp [hskip])]
      exact ih rm h
    · simp only [analysisScan, if_neg hskip] at h
      rw [List.filter_cons_of_pos (by simp [hskip])]
      cases hp : processAnalysisRecord
          { rm with stats :=
            { rm.stats with
              logRecordsScanned := rm.stats.logRecordsScanned + 1 } } r with
      | error e => rw [hp] at h; exact absurd h (by simp [bind_error_elim])
      | ok x =>
        rw [hp] at h
        rw [bind_ok_elim] at h
        have hx := par_ok_dpt _ r x hp
        rw [List.foldl_cons, ← hx]
        exact ih x h

theorem analysisScan_map_dpt_congr (start : LSN) (l : List LogRecord)
    (rm1 rm2 : RMState)
    (h : rm1.dirtyPageTable = rm2.dirtyPageTable) :
    (analysisScan rm1 start l).map (fun s => s.dirtyPageTable)
      = (analysisScan rm2 start l).map (fun s => s.dirtyPageTable) := by
  induction l generalizing rm1 rm2 with
  | nil => simp [analysisScan, Except.map, h]
  | cons r rest ih =>
    by_cases hskip : r.lsn < start
    · simp only [analysisScan, if_pos hskip]
      exact ih rm1 rm2 h
    · simp only [analysisScan, if_neg hskip]
      by_cases hc : okCond r
      · obtain ⟨x1, hx1⟩ := par_ok_of_okCond
          { rm1 with stats :=
            { rm1.stats with
              logRecordsScanned := rm1.stats.logRecordsScanned + 1 } } r hc
        obtain ⟨x2, hx2⟩ := par_ok_of_okCond
          { rm2 with stats :=
            { rm2.stats with
              logRecordsScanned := rm2.stats.logRecordsScanned + 1 } } r hc
        have hd1 := par_ok_dpt _ r x1 hx1
        have hd2 := par_ok_dpt _ r x2 hx2
        have : x1.dirtyPageTable = x2.dirtyPageTable := by
          rw [hd1, hd2]; simp only [h]
        simp only [hx1, hx2, bind_ok_elim]
        exact ih x1 x2 this
      · rw [par_error _ r hc, par_error _ r hc]

theorem analysisScan_aborts (start : LSN) (l : List LogRecord)
    (rm : RMState)
    (h : ∀ r ∈ l, r.type = .AbortRecord ∧ r.tid ≠ none) :
    ∃ rm', analysisScan rm start l = .ok rm'
      ∧ rm'.dirtyPageTable = rm.dirtyPageTable := by
  induction l generalizing rm with
  | nil => exact ⟨rm, rfl, rfl⟩
  | cons r rest ih =>
    have hr := h r (by simp)
    have hrest : ∀ x ∈ rest, x.type = .AbortRecord ∧ x.tid ≠ none :=
      fun x hx => h x (by simp [hx])
    by_cases hskip : r.lsn < start
    · simp only [analysisScan, if_pos hskip]
      exact ih rm hrest
    · have hc : okCond r := .inr (.inr hr.2)
      obtain ⟨x, hx⟩ := par_ok_of_okCond
        { rm with stats :=
          { rm.stats with
            logRecordsScanned := rm.stats.logRecordsScanned + 1 } } r hc
      have hd := par_ok_dpt _ r x hx
      have hstep : dptStep rm.dirtyPageTable r = rm.dirtyPageTable := by
        obtain ⟨lsn, ty, tid, prev, page, bi, ai, un⟩ := r
        simp only at hr
        rw [hr.1]
        cases tid <;> simp [dptStep]
      obtain ⟨rm', hrm', hdpt⟩ := ih x hrest
      refine ⟨rm', ?_, ?_⟩
      · simp only [analysisScan, if_neg hskip, hx, bind_ok_elim]
        exact hrm'
      · rw [hdpt, hd, hstep]

theorem redoRecord_preserves (rm : RMState) (pages : PageStore)
    (rec : LogRecord) :
    (redoRecord rm pages rec).1.dirtyPageTable = rm.dirtyPageTable
    ∧ (redoRecord rm pages rec).1.transactionTable = rm.transactionTable
    ∧ (redoRecord rm pages rec).2.1 = pages := by
  unfold redoRecord
  split <;>
    first
    | exact ⟨rfl, rfl, rfl⟩
    | (split <;>
        first
        | exact ⟨rfl, rfl, rfl⟩
        | (split <;> exact ⟨rfl, rfl, rfl⟩))

theorem redoRecord_applied (rm : RMState) (pages : PageStore)
    (rec r : LogRecord) (h : r ∈ (redoRecord rm pages rec).2.2) :
    r = rec
    ∧ ∃ v, alookup rm.dirtyPageTable rec.pageId = some v ∧ v ≤ rec.lsn := by
  unfold redoRecord at h
  split at h <;> try exact absurd h (List.not_mem_nil r)
  all_goals split at h <;> try exact absurd h (List.not_mem_nil r)
  all_goals split at h <;> try exact absurd h (List.not_mem_nil r)
  all_goals
    rename_i v heq hle
    rcases List.mem_singleton.mp h with rfl
    exact ⟨rfl, v, heq, hle⟩

theorem redoScan_preserves (minLSN : LSN) (l : List LogRecord) :
    ∀ (rm : RMState) (pages : PageStore),
    (redoScan minLSN rm pages l).1.dirtyPageTable = rm.dirtyPageTable
    ∧ (redoScan minLSN rm pages l).1.transactionTable = rm.transactionTable
    ∧ (redoScan minLSN rm pages l).2.1 = pages := by
  induction l with
  | nil => exact fun rm pages => ⟨rfl, rfl, rfl⟩
  | cons rec rest ih =>
    intro rm pages
    by_cases hskip : rec.lsn < minLSN
    · simp only [redoScan, if_pos hskip]
      exact ih rm pages
    · simp only [redoScan, if_neg hskip]
      obtain ⟨h1, h2, h3⟩ := redoRecord_preserves rm pages rec
      obtain ⟨g1, g2, g3⟩ :=
        ih (redoRecord rm pages rec).1 (redoRecord rm pages rec).2.1
      exact ⟨by rw [g1, h1], by rw [g2, h2], by rw [g3, h3]⟩

theorem redoScan_applied (minLSN : LSN) (l : List LogRecord) :
    ∀ (rm : RMState) (pages : PageStore) (r : LogRecord),
    r ∈ (redoScan minLSN rm pages l).2.2 →
    minLSN ≤ r.lsn
    ∧ ∃ v, alookup rm.dirtyPageTable r.pageId = some v ∧ v ≤ r.lsn := by
  induction l with
  | nil => intro rm pages r h; cases h
  | cons rec rest ih =>
    intro rm pages r h
    by_cases hskip : rec.lsn < minLSN
    · simp only [redoScan, if_pos hskip] at h
      exact ih rm pages r h
    · simp only [redoScan, if_neg hskip] at h
      rcases List.mem_append.mp h with hmem | hmem
      · obtain ⟨rfl, v, hv, hle⟩ := redoRecord_applied rm pages rec r hmem
        exact ⟨not_lt.mp hskip, v, hv, hle⟩
      · have := ih (redoRecord rm pages rec).1 (redoRecord rm pages rec).2.1
          r hmem
        rwa [(redoRecord_preserves rm pages rec).1] at this

theorem undoWalk_preserves (recordMap : List (LSN × LogRecord))
    (tid : TxnId) (fuel : Nat) :
    ∀ (cur : LSN) (rm : RMState) (w : WalState) (pages : PageStore)
      (clrs : List LogRecord),
    (undoWalk recordMap tid fuel cur rm w pages clrs).1.dirtyPageTable
        = rm.dirtyPageTable
    ∧ (undoWalk recordMap tid fuel cur rm w pages clrs).1.transactionTable
        = rm.transactionTable
    ∧ (undoWalk recordMap tid fuel cur rm w pages clrs).2.1 = w
    ∧ (undoWalk recordMap tid fuel cur rm w pages clrs).2.2.1 = pages := by
  induction fuel with
  | zero => exact fun cur rm w pages clrs => ⟨rfl, rfl, rfl, rfl⟩
  | succ fuel ih =>
    intro cur rm w pages clrs
    by_cases hz : cur = 0
    · simp [undoWalk, hz]
    · cases hl : alookup recordMap cur with
      | none => simp [undoWalk, hz, hl]
      | some rec =>
        by_cases htid : rec.tid = some tid
        · obtain ⟨lsn, ty, rtid, prev, page, bi, ai, un⟩ := rec
          cases ty <;>
            simp only [undoWalk, if_neg hz, hl, if_pos htid] <;>
            exact ih _ _ _ _ _
        · simp only [undoWalk, if_neg hz, hl, if_neg htid]
          exact ih _ _ _ _ _

theorem undoTransaction_effect (rm : RMState) (w : WalState)
    (pages : PageStore) (txnInfo : TransactionInfo) :
    (undoTransaction rm w pages txnInfo).2.1.records
      = w.records
        ++ [{ lsn := w.nextLSN, type := .AbortRecord,
              tid := some txnInfo.tid, prevLSN := txnInfo.lastLSN }]
    ∧ (undoTransaction rm w pages txnInfo).2.1.nextLSN = w.nextLSN + 1
    ∧ (undoTransaction rm w pages txnInfo).1.dirtyPageTable
        = rm.dirtyPageTable
    ∧ (undoTransaction rm w pages txnInfo).1.transactionTable
        = rm.transactionTable
    ∧ (undoTransaction rm w pages txnInfo).2.2.1 = pages := by
  obtain ⟨h1, h2, h3, h4⟩ := undoWalk_preserves
    (buildRecordMap w.records) txnInfo.tid
    ((buildRecordMap w.records).length + 1) txnInfo.lastLSN rm w pages []
  simp [undoTransaction, logAbortDuringRecovery, walAppend, h1, h2, h3, h4]

theorem undoAccum_effect (acc : RMState × WalState × PageStore × List LogRecord)
    (kv : TxnId × TransactionInfo) :
    (undoAccum acc kv).2.1.records
      = acc.2.1.records
        ++ [{ lsn := acc.2.1.nextLSN, type := .AbortRecord,
              tid := some kv.2.tid, prevLSN := kv.2.lastLSN }]
    ∧ (undoAccum acc kv).2.1.nextLSN = acc.2.1.nextLSN + 1
    ∧ (undoAccum acc kv).1.dirtyPageTable = acc.1.dirtyPageTable
    ∧ (undoAccum acc kv).1.transactionTable = acc.1.transactionTable
    ∧ (undoAccum acc kv).2.2.1 = acc.2.2.1 := by
  obtain ⟨rm, w, pages, clrs⟩ := acc
  exact undoTransaction_effect rm w pages kv.2

theorem undoFold_effect (ts : List (TxnId × TransactionInfo)) :
    ∀ (acc : RMState × WalState × PageStore × List LogRecord),
    ∃ ab : List LogRecord,
      (ts.foldl undoAccum acc).2.1.records = acc.2.1.records ++ ab
      ∧ (∀ r ∈ ab, r.type = .AbortRecord ∧ r.tid ≠ none)
      ∧ (ts.foldl undoAccum acc).1.dirtyPageTable = acc.1.dirtyPageTable
      ∧ (ts.foldl undoAccum acc).1.transactionTable
          = acc.1.transactionTable
      ∧ (ts.foldl undoAccum acc).2.2.1 = acc.2.2.1 := by
  induction ts with
  | nil =>
    exact fun acc =>
      ⟨[], by simp, fun r hr => absurd hr (List.not_mem_nil r), rfl, rfl, rfl⟩
  | cons kv rest ih =>
    intro acc
    obtain ⟨e1, e2, e3, e4, e5⟩ := undoAccum_effect acc kv
    obtain ⟨ab, g1, g2, g3, g4, g5⟩ := ih (undoAccum acc kv)
    refine ⟨{ lsn := acc.2.1.nextLSN, type := .AbortRecord,
              tid := some kv.2.tid, prevLSN := kv.2.lastLSN } :: ab,
            ?_, ?_, ?_, ?_, ?_⟩
    · rw [List.foldl_cons, g1, e1, List.append_assoc]
      rfl
    · intro r hr
      rcases List.mem_cons.mp hr with rfl | hr
      · exact ⟨rfl, by simp⟩
      · exact g2 r hr
    · rw [List.foldl_cons, g3, e3]
    · rw [List.foldl_cons, g4, e4]
    · rw [List.foldl_cons, g5, e5]

theorem undoPhase_effect (rm : RMState) (w : WalState) (pages : PageStore) :
    ∃ ab : List LogRecord,
      (undoPhase rm w pages).2.1.records = w.records ++ ab
      ∧ (∀ r ∈ ab, r.type = .AbortRecord ∧ r.tid ≠ none)
      ∧ (undoPhase rm w pages).1.dirtyPageTable = rm.dirtyPageTable
      ∧ (undoPhase rm w pages).1.transactionTable = rm.transactionTable
      ∧ (undoPhase rm w pages).2.2.1 = pages := by
  exact undoFold_effect _ (rm, w, pages, [])

/-- C6.  The Redo phase does nothing when the dirty page table is empty,
and every record it hands to `applyRedo` has LSN at least
`min(rec_lsn over DPT)` (the scan floor) and lies on a page present in
the dirty page table with `rec_lsn` at most the record's LSN — so every
record whose page is absent from the DPT, or whose LSN is below its
page's `rec_lsn`, is skipped. -/
theorem redo_floor_and_dpt_filters (rm : RMState) (pages : PageStore)
    (log : List LogRecord) :
    (rm.dirtyPageTable = [] → redoPhase rm pages log = (rm, pages, []))
    ∧ ∀ r ∈ (redoPhase rm pages log).2.2,
        minRecLSN rm.dirtyPageTable ≤ r.lsn
        ∧ ∃ v, alookup rm.dirtyPageTable r.pageId = some v ∧ v ≤ r.lsn := by
  constructor
  · intro h
    simp [redoPhase, h]
  · intro r hr
    unfold redoPhase at hr
    by_cases hd : rm.dirtyPageTable = []
    · rw [if_pos hd] at hr
      cases hr
    · rw [if_neg hd] at hr
      exact redoScan_applied _ log rm pages r hr

/-- C6 witness: the empty-DPT branch on an empty manager, and the filter
conditions on a one-update log whose page 5 entered the DPT at LSN 1. -/
theorem redo_floor_and_dpt_filters_witness :
    redoPhase {} [] [] = ({}, [], [])
    ∧ (minRecLSN [(5, 1)]
        ≤ ({ lsn := 1, type := .UpdateRecord, tid := some 1,
             pageId := 5 } : LogRecord).lsn
      ∧ ∃ v, alookup ([(5, 1)] :
          List (PageHash × LSN))
            ({ lsn := 1, type := .UpdateRecord, tid := some 1,
               pageId := 5 } : LogRecord).pageId = some v
          ∧ v ≤ ({ lsn := 1, type := .UpdateRecord, tid := some 1,
                   pageId := 5 } : LogRecord).lsn) :=
  ⟨(redo_floor_and_dpt_filters {} [] []).1 rfl,
   (redo_floor_and_dpt_filters { dirtyPageTable := [(5, 1)] } []
      [{ lsn := 1, type := .UpdateRecord, tid := some 1, pageId := 5 }]).2
     { lsn := 1, type := .UpdateRecord, tid := some 1, pageId := 5 }
     (by decide)⟩

theorem find_first_le (q : LogRecord → Bool) (l : List LogRecord)
    (a : LogRecord)
    (hsorted : l.Pairwise fun x y => x.lsn < y.lsn)
    (hf : l.find? q = some a) :
    ∀ b ∈ l, q b = true → a.lsn ≤ b.lsn := by
  induction l with
  | nil => cases hf
  | cons c tl ih =>
    rcases hq : q c with _ | _
    · rw [List.find?_cons_of_neg _ (by simp [hq])] at hf
      intro b hb hqb
      rcases List.mem_cons.mp hb with rfl | hb
      · rw [hqb] at hq; cases hq
      · exact ih (List.pairwise_cons.mp hsorted).2 hf b hb hqb
    · rw [List.find?_cons_of_pos _ hq] at hf
      injection hf with hf
      subst hf
      intro b hb hqb
      rcases List.mem_cons.mp hb with rfl | hb
      · exact le_refl _
      · exact le_of_lt ((List.pairwise_cons.mp hsorted).1 b hb)

/-- C5.  During Analysis, the dirty page table entry of page `p` is
written only if `p` is absent: after a successful scan starting with `p`
absent, the entry equals the LSN of the first scanned data-modification
or CLR record on `p` (none when there is no such record); when the log's
LSNs are strictly increasing, that entry is at most the LSN of every
scanned data record on `p` — the earliest such record's LSN is
retained. -/
theorem analysis_dpt_retains_earliest (rm rm' : RMState) (start : LSN)
    (log : List LogRecord) (p : PageHash)
    (hok : analysisScan rm start log = .ok rm')
    (habs : alookup rm.dirtyPageTable p = none) :
    alookup rm'.dirtyPageTable p
      = ((log.filter fun r => !decide (r.lsn < start)).find?
          (touches p)).map (fun r => r.lsn)
    ∧ (List.Pairwise (fun a b => a.lsn < b.lsn) log →
        ∀ r ∈ log, ¬ r.lsn < start → touches p r = true →
          ∃ v, alookup rm'.dirtyPageTable p = some v ∧ v ≤ r.lsn) := by
  have hdpt := analysisScan_ok_dpt start log rm rm' hok
  have hfirst : alookup rm'.dirtyPageTable p
      = ((log.filter fun r => !decide (r.lsn < start)).find?
          (touches p)).map (fun r => r.lsn) := by
    rw [hdpt]
    exact foldl_dptStep_lookup_none _ _ p habs
  refine ⟨hfirst, ?_⟩
  intro hsorted r hr hstart htouch
  have hmem : r ∈ log.filter fun x => !decide (x.lsn < start) :=
    List.mem_filter.mpr ⟨hr, by simp [hstart]⟩
  have hsome : ((log.filter fun x => !decide (x.lsn < start)).find?
      (touches p)).isSome := by
    rw [List.find?_isSome]
    exact ⟨r, hmem, htouch⟩
  obtain ⟨a, ha⟩ := Option.isSome_iff_exists.mp hsome
  have hle := find_first_le (touches p) _ a
    (hsorted.filter _) ha r hmem htouch
  exact ⟨a.lsn, by rw [hfirst, ha, Option.map_some'], hle⟩

/-- C5 witness: a one-update log scanned from LSN 0 with page 5 initially
absent. -/
theorem analysis_dpt_retains_earliest_witness :
    alookup ([(5, 1)] : List (PageHash × LSN)) 5
      = ((([({ lsn := 1, type := .UpdateRecord, tid := some 1,
               pageId := 5 } : LogRecord)].filter
            fun r => !decide (r.lsn < 0)).find? (touches 5)).map
          (fun r => r.lsn))
    ∧ (List.Pairwise (fun a b => a.lsn < b.lsn)
        [({ lsn := 1, type := .UpdateRecord, tid := some 1,
            pageId := 5 } : LogRecord)] →
        ∀ r ∈ [({ lsn := 1, type := .UpdateRecord, tid := some 1,
                  pageId := 5 } : LogRecord)],
          ¬ r.lsn < 0 → touches 5 r = true →
          ∃ v, alookup ([(5, 1)] : List (PageHash × LSN)) 5
              = some v ∧ v ≤ r.lsn) :=
  analysis_dpt_retains_earliest {}
    { dirtyPageTable := [(5, 1)],
      transactionTable :=
        [(1, { tid := 1, status := .TxnActive, firstLSN := 1,
               lastLSN := 1, undoNextLSN := 0 })],
      stats := { logRecordsScanned := 1 } } 0
    [{ lsn := 1, type := .UpdateRecord, tid := some 1, pageId := 5 }] 5
    (by decide) (by decide)

theorem except_map_ok {α β : Type} (f : α → β) (x : Except String α)
    (y : β) (h : x.map f = .ok y) : ∃ z, x = .ok z ∧ f z = y := by
  cases x with
  | error e => cases h
  | ok z => exact ⟨z, rfl, Except.ok.inj h⟩

theorem analysisScan_ok_of_okCond (start : LSN) (l : List LogRecord) :
    ∀ rm : RMState, (∀ r ∈ l, okCond r) →
    ∃ rm', analysisScan rm start l = .ok rm' := by
  induction l with
  | nil => exact fun rm _ => ⟨rm, rfl⟩
  | cons r rest ih =>
    intro rm h
    have hrest : ∀ x ∈ rest, okCond x := fun x hx => h x (by simp [hx])
    by_cases hskip : r.lsn < start
    · simp only [analysisScan, if_pos hskip]
      exact ih rm hrest
    · obtain ⟨x, hx⟩ := par_ok_of_okCond
        { rm with stats :=
          { rm.stats with
            logRecordsScanned := rm.stats.logRecordsScanned + 1 } } r
        (h r (by simp))
      obtain ⟨rm', hrm'⟩ := ih x hrest
      refine ⟨rm', ?_⟩
      simp only [analysisScan, if_neg hskip, hx, bind_ok_elim]
      exact hrm'

theorem runtimeAfter_dirty (l : List LogRecord) :
    (runtimeAfter l).dirtyPages = l.foldl dptStep [] := by
  show (l.foldl walRuntimeApply {}).dirtyPages
    = l.foldl dptStep (WalRuntime.dirtyPages {})
  generalize ({} : WalRuntime) = s
  induction l generalizing s with
  | nil => rfl
  | cons r rest ih => exact ih (walRuntimeApply s r)

theorem analysisPhase_map_dpt_none (rm0 : RMState) (log : List LogRecord) :
    (analysisPhase rm0 none log).map (fun s => s.dirtyPageTable)
      = (analysisScan { stats := rm0.stats } 0 log).map
          (fun s => s.dirtyPageTable) := by
  unfold analysisPhase
  cases h : analysisScan { stats := rm0.stats } 0 log with
  | error e => simp [h, bind_error_elim, Except.map]
  | ok x => simp [h, bind_ok_elim, Except.map]

theorem analysisPhase_map_dpt_some (rm0 : RMState) (cp : CheckpointRecord)
    (log : List LogRecord) :
    (analysisPhase rm0 (some cp) log).map (fun s => s.dirtyPageTable)
      = (analysisScan { seedFromCheckpoint cp with stats := rm0.stats }
          cp.lsn log).map (fun s => s.dirtyPageTable) := by
  unfold analysisPhase
  cases h : analysisScan { seedFromCheckpoint cp with stats := rm0.stats }
      cp.lsn log with
  | error e => simp [h, bind_error_elim, Except.map]
  | ok x => simp [h, bind_ok_elim, Except.map]

theorem analysisPhase_map_dpt_init_congr (rm0 rm0' : RMState)
    (sidecar : Option CheckpointRecord) (log : List LogRecord) :
    (analysisPhase rm0 sidecar log).map (fun s => s.dirtyPageTable)
      = (analysisPhase rm0' sidecar log).map (fun s => s.dirtyPageTable) := by
  cases sidecar with
  | none =>
    rw [analysisPhase_map_dpt_none, analysisPhase_map_dpt_none]
    exact analysisScan_map_dpt_congr 0 log _ _ rfl
  | some cp =>
    rw [analysisPhase_map_dpt_some, analysisPhase_map_dpt_some]
    exact analysisScan_map_dpt_congr cp.lsn log _ _ rfl

theorem analysisPhase_abort_append (rm0 : RMState)
    (sidecar : Option CheckpointRecord) (log ab : List LogRecord)
    (hab : ∀ r ∈ ab, r.type = .AbortRecord ∧ r.tid ≠ none) :
    (analysisPhase rm0 sidecar (log ++ ab)).map (fun s => s.dirtyPageTable)
      = (analysisPhase rm0 sidecar log).map (fun s => s.dirtyPageTable) := by
  cases sidecar with
  | none =>
    rw [analysisPhase_map_dpt_none, analysisPhase_map_dpt_none,
      analysisScan_append]
    cases h : analysisScan { stats := rm0.stats } 0 log with
    | error e => rfl
    | ok x =>
      obtain ⟨x', hx', hdpt⟩ := analysisScan_aborts 0 ab x hab
      simp [except_bind_ok, hx', hdpt, Except.map]
  | some cp =>
    rw [analysisPhase_map_dpt_some, analysisPhase_map_dpt_some,
      analysisScan_append]
    cases h : analysisScan
        { seedFromCheckpoint cp with stats := rm0.stats } cp.lsn log with
    | error e => rfl
    | ok x =>
      obtain ⟨x', hx', hdpt⟩ := analysisScan_aborts cp.lsn ab x hab
      simp [except_bind_ok, hx', hdpt, Except.map]

theorem redoPhase_preserves (rm : RMState) (pages : PageStore)
    (log : List LogRecord) :
    (redoPhase rm pages log).1.dirtyPageTable = rm.dirtyPageTable
    ∧ (redoPhase rm pages log).1.transactionTable = rm.transactionTable
    ∧ (redoPhase rm pages log).2.1 = pages := by
  unfold redoPhase
  split
  · exact ⟨rfl, rfl, rfl⟩
  · exact redoScan_preserves _ log rm pages

theorem recover_of_analysis (rm0 : RMState) (w : WalState)
    (pages : PageStore) (sidecar : Option CheckpointRecord) (rm1 : RMState)
    (hA : analysisPhase rm0 sidecar w.records = .ok rm1) :
    recover rm0 w pages sidecar = .ok
      { rm := (undoPhase (redoPhase rm1 pages w.records).1 w
          (redoPhase rm1 pages w.records).2.1).1,
        wal := (undoPhase (redoPhase rm1 pages w.records).1 w
          (redoPhase rm1 pages w.records).2.1).2.1,
        pages := (undoPhase (redoPhase rm1 pages w.records).1 w
          (redoPhase rm1 pages w.records).2.1).2.2.1,
        redoApplied := (redoPhase rm1 pages w.records).2.2,
        clrsPassed := (undoPhase (redoPhase rm1 pages w.records).1 w
          (redoPhase rm1 pages w.records).2.1).2.2.2 } := by
  unfold recover
  rw [hA, bind_ok_elim]

theorem recover_error_of_analysis (rm0 : RMState) (w : WalState)
    (pages : PageStore) (sidecar : Option CheckpointRecord) (e : String)
    (hA : analysisPhase rm0 sidecar w.records = .error e) :
    recover rm0 w pages sidecar = .error e := by
  unfold recover
  rw [hA, bind_error_elim]

/-- C3 (amended).  Running `Recover` a second time immediately after a
completed first run succeeds, and leaves the rebuilt dirty page table and
the page contents identical to those after the first run.  The rebuilt
transaction table is not guaranteed identical: the Abort records appended
by the first run's Undo phase re-classify each loser as `TxnAborted` on
the second run (see the counterexample). -/
theorem recover_twice_same_dpt_and_pages
    (rm0 : RMState) (w : WalState) (pages : PageStore)
    (sidecar : Option CheckpointRecord) (res1 : RecoverOutcome)
    (h : recover rm0 w pages sidecar = .ok res1) :
    ∃ res2, recover res1.rm res1.wal res1.pages sidecar = .ok res2
      ∧ res2.rm.dirtyPageTable = res1.rm.dirtyPageTable
      ∧ res2.pages = res1.pages := by
  cases hA : analysisPhase rm0 sidecar w.records with
  | error e =>
    rw [recover_error_of_analysis rm0 w pages sidecar e hA] at h
    cases h
  | ok rm1 =>
    rw [recover_of_analysis rm0 w pages sidecar rm1 hA,
      Except.ok.injEq] at h
    subst h
    obtain ⟨rp1, rp2, rp3⟩ := redoPhase_preserves rm1 pages w.records
    obtain ⟨ab, hu1, hu2, hu3, hu4, hu5⟩ :=
      undoPhase_effect (redoPhase rm1 pages w.records).1 w
        (redoPhase rm1 pages w.records).2.1
    have hdpt1 : (analysisPhase rm0 sidecar w.records).map
        (fun s => s.dirtyPageTable) = .ok rm1.dirtyPageTable := by
      rw [hA]; rfl
    have hmap2 :
        (analysisPhase
            (undoPhase (redoPhase rm1 pages w.records).1 w
              (redoPhase rm1 pages w.records).2.1).1 sidecar
            (w.records ++ ab)).map (fun s => s.dirtyPageTable)
          = .ok rm1.dirtyPageTable := by
      rw [analysisPhase_abort_append _ sidecar _ ab hu2,
        analysisPhase_map_dpt_init_congr _ rm0 sidecar w.records, hdpt1]
    obtain ⟨rm1b, hok2, hdpt2⟩ := except_map_ok _ _ _ hmap2
    have hok2' : analysisPhase
        (undoPhase (redoPhase rm1 pages w.records).1 w
          (redoPhase rm1 pages w.records).2.1).1 sidecar
        (undoPhase (redoPhase rm1 pages w.records).1 w
          (redoPhase rm1 pages w.records).2.1).2.1.records = .ok rm1b := by
      rw [hu1]
      exact hok2
    refine ⟨_, recover_of_analysis _ _
      (undoPhase (redoPhase rm1 pages w.records).1 w
        (redoPhase rm1 pages w.records).2.1).2.2.1 sidecar rm1b hok2',
      ?_, ?_⟩
    · obtain ⟨rq1, rq2, rq3⟩ := redoPhase_preserves rm1b
        (undoPhase (redoPhase rm1 pages w.records).1 w
          (redoPhase rm1 pages w.records).2.1).2.2.1
        (undoPhase (redoPhase rm1 pages w.records).1 w
          (redoPhase rm1 pages w.records).2.1).2.1.records
      obtain ⟨ab2, hv1, hv2, hv3, hv4, hv5⟩ :=
        undoPhase_effect
          (redoPhase rm1b
            (undoPhase (redoPhase rm1 pages w.records).1 w
              (redoPhase rm1 pages w.records).2.1).2.2.1
            (undoPhase (redoPhase rm1 pages w.records).1 w
              (redoPhase rm1 pages w.records).2.1).2.1.records).1
          (undoPhase (redoPhase rm1 pages w.records).1 w
            (redoPhase rm1 pages w.records).2.1).2.1
          (redoPhase rm1b
            (undoPhase (redoPhase rm1 pages w.records).1 w
              (redoPhase rm1 pages w.records).2.1).2.2.1
            (undoPhase (redoPhase rm1 pages w.records).1 w
              (redoPhase rm1 pages w.records).2.1).2.1.records).2.1
      exact ((hv3.trans rq1).trans hdpt2).trans (hu3.trans rp1).symm
    · obtain ⟨rq1, rq2, rq3⟩ := redoPhase_preserves rm1b
        (undoPhase (redoPhase rm1 pages w.records).1 w
          (redoPhase rm1 pages w.records).2.1).2.2.1
        (undoPhase (redoPhase rm1 pages w.records).1 w
          (redoPhase rm1 pages w.records).2.1).2.1.records
      obtain ⟨ab2, hv1, hv2, hv3, hv4, hv5⟩ :=
        undoPhase_effect
          (redoPhase rm1b
            (undoPhase (redoPhase rm1 pages w.records).1 w
              (redoPhase rm1 pages w.records).2.1).2.2.1
            (undoPhase (redoPhase rm1 pages w.records).1 w
              (redoPhase rm1 pages w.records).2.1).2.1.records).1
          (undoPhase (redoPhase rm1 pages w.records).1 w
            (redoPhase rm1 pages w.records).2.1).2.1
          (redoPhase rm1b
            (undoPhase (redoPhase rm1 pages w.records).1 w
              (redoPhase rm1 pages w.records).2.1).2.2.1
            (undoPhase (redoPhase rm1 pages w.records).1 w
              (redoPhase rm1 pages w.records).2.1).2.1.records).2.1
      exact hv5.trans rq3

/-- C3 witness: both runs on an empty WAL, no sidecar. -/
theorem recover_twice_same_dpt_and_pages_witness :
    ∃ res2, recover {} {} [] none = .ok res2
      ∧ res2.rm.dirtyPageTable = ([] : List (PageHash × LSN))
      ∧ res2.pages = ([] : PageStore) :=
  recover_twice_same_dpt_and_pages {} {} [] none
    { rm := {}, wal := {}, pages := [], redoApplied := [],
      clrsPassed := [] } (by decide)

/-- C4 (amended).  For a log split at a checkpoint — every record of the
prefix below the checkpoint LSN, every record of the suffix at or above
it, and the prefix free of id-less non-checkpoint records — Analysis
seeded from the checkpoint snapshot of the prefix computes exactly the
dirty page table of a from-LSN-0 Analysis of the whole log.  The
transaction tables need not agree: transactions that terminated before
the checkpoint are absent from the seeded table (see the
counterexample). -/
theorem seeded_analysis_same_dpt (pfx sfx : List LogRecord)
    (beginLSN : LSN) (rm0 rm0' : RMState)
    (hpfx : ∀ r ∈ pfx, r.lsn < beginLSN)
    (hsfx : ∀ r ∈ sfx, beginLSN ≤ r.lsn)
    (hwf : ∀ r ∈ pfx, okCond r) :
    (analysisPhase rm0' (some (checkpointOf pfx beginLSN))
        (pfx ++ sfx)).map (fun s => s.dirtyPageTable)
      = (analysisPhase rm0 none (pfx ++ sfx)).map
          (fun s => s.dirtyPageTable) := by
  rw [analysisPhase_map_dpt_some, analysisPhase_map_dpt_none]
  rw [show (checkpointOf pfx beginLSN).lsn = beginLSN from rfl]
  rw [analysisScan_append, analysisScan_append]
  rw [analysisScan_skips_all _ beginLSN pfx hpfx]
  obtain ⟨rmP, hP⟩ :=
    analysisScan_ok_of_okCond 0 pfx { stats := rm0.stats } hwf
  rw [hP, except_bind_ok, except_bind_ok]
  rw [analysisScan_start_zero _ beginLSN sfx hsfx]
  apply analysisScan_map_dpt_congr
  have h1 := analysisScan_ok_dpt 0 pfx { stats := rm0.stats } rmP hP
  have hfilter : (pfx.filter fun r => !decide (r.lsn < 0)) = pfx :=
    List.filter_eq_self.mpr fun a _ => by simp
  rw [h1, hfilter]
  show (runtimeAfter pfx).dirtyPages
    = pfx.foldl dptStep ({ stats := rm0.stats } : RMState).dirtyPageTable
  rw [runtimeAfter_dirty]

/-- C4 witness: the committed-before-checkpoint log split at LSN 3. -/
theorem seeded_analysis_same_dpt_witness :
    (analysisPhase {} (some (checkpointOf committedSegment 3))
        (committedSegment ++ checkpointSuffix)).map
      (fun s => s.dirtyPageTable)
      = (analysisPhase {} none (committedSegment ++ checkpointSuffix)).map
          (fun s => s.dirtyPageTable) :=
  seeded_analysis_same_dpt committedSegment checkpointSuffix 3 {} {}
    (by decide) (by decide) (by decide)

theorem par_checkpoint_noop (rm : RMState) (r : LogRecord)
    (hr : r.type = .CheckpointBegin ∨ r.type = .CheckpointEnd) :
    processAnalysisRecord rm r = .ok rm := by
  obtain ⟨lsn, ty, tid, prev, page, bi, ai, un⟩ := r
  simp only at hr
  rcases hr with rfl | rfl <;> rfl

theorem analysisPhase_map_tables_some (rm0 : RMState)
    (cp : CheckpointRecord) (log : List LogRecord) :
    (analysisPhase rm0 (some cp) log).map
        (fun s => (s.dirtyPageTable, s.transactionTable))
      = (analysisScan { seedFromCheckpoint cp with stats := rm0.stats }
          cp.lsn log).map
          (fun s => (s.dirtyPageTable, s.transactionTable)) := by
  unfold analysisPhase
  cases h : analysisScan { seedFromCheckpoint cp with stats := rm0.stats }
      cp.lsn log with
  | error e => simp [h, bind_error_elim, Except.map]
  | ok x => simp [h, bind_ok_elim, Except.map]

/-- C8 (amended).  When the sidecar is present, Analysis seeds from it
unconditionally: appending or removing a CheckpointBegin/CheckpointEnd
record changes neither rebuilt table (such records are no-ops in the
scan), and on a log with no checkpoint records at all the seeded run
still starts from the sidecar's tables; only a missing (or unreadable)
sidecar makes Analysis scan from LSN 0. -/
theorem sidecar_seeded_unconditionally :
    (∀ (cp : CheckpointRecord) (rm0 : RMState) (log : List LogRecord)
        (r : LogRecord),
      r.type = .CheckpointBegin ∨ r.type = .CheckpointEnd →
      (analysisPhase rm0 (some cp) (log ++ [r])).map
          (fun s => (s.dirtyPageTable, s.transactionTable))
        = (analysisPhase rm0 (some cp) log).map
            (fun s => (s.dirtyPageTable, s.transactionTable)))
    ∧ ∀ (cp : CheckpointRecord) (rm0 : RMState),
        (analysisPhase rm0 (some cp) []).map
            (fun s => (s.dirtyPageTable, s.transactionTable))
          = .ok ((seedFromCheckpoint cp).dirtyPageTable,
                 (seedFromCheckpoint cp).transactionTable) := by
  constructor
  · intro cp rm0 log r hr
    rw [analysisPhase_map_tables_some, analysisPhase_map_tables_some,
      analysisScan_append]
    cases h : analysisScan { seedFromCheckpoint cp with stats := rm0.stats }
        cp.lsn log with
    | error e => rfl
    | ok x =>
      rw [except_bind_ok]
      by_cases hskip : r.lsn < cp.lsn
      · simp [analysisScan, hskip]
      · simp only [analysisScan, if_neg hskip,
          par_checkpoint_noop _ r hr, bind_ok_elim]
        rfl
  · intro cp rm0
    rfl

/-- C8 witness: a CheckpointEnd appended to the empty log leaves the
seeded tables unchanged. -/
theorem sidecar_seeded_unconditionally_witness :
    (analysisPhase {} (some danglingSidecar)
        ([] ++ [({ lsn := 5, type := .CheckpointEnd } : LogRecord)])).map
      (fun s => (s.dirtyPageTable, s.transactionTable))
      = (analysisPhase {} (some danglingSidecar) []).map
          (fun s => (s.dirtyPageTable, s.transactionTable)) :=
  sidecar_seeded_unconditionally.1 danglingSidecar {} []
    { lsn := 5, type := .CheckpointEnd } (by decide)

/-- C10.  `GetDirtyPageTable` and `GetTransactionTable` return defensive
copies: they allocate a fresh map object and copy the internal entries
into it, so an arbitrary mutation applied through the returned reference
leaves the manager's internal table object unchanged. -/
theorem table_accessors_return_copies (h : RMHeap)
    (hd : h.dptRef < h.dptObjects.length)
    (ha : h.attRef < h.attObjects.length)
    (f : List (PageHash × LSN) → List (PageHash × LSN))
    (g : List (TxnId × TransactionInfo) → List (TxnId × TransactionInfo)) :
    readDptObject
        (mutateDptObject (getDirtyPageTable h).1 (getDirtyPageTable h).2 f)
        h.dptRef
      = readDptObject h h.dptRef
    ∧ readAttObject
        (mutateAttObject (getTransactionTable h).1
          (getTransactionTable h).2 g)
        h.attRef
      = readAttObject h h.attRef := by
  constructor
  · show ((h.dptObjects ++ [readDptObject h h.dptRef]).set
        h.dptObjects.length _).getD h.dptRef []
      = h.dptObjects.getD h.dptRef []
    rw [List.getD_eq_getElem?_getD, List.getD_eq_getElem?_getD,
      List.getElem?_set_ne (Nat.ne_of_gt hd), List.getElem?_append,
      if_pos hd]
  · show ((h.attObjects ++ [(readAttObject h h.attRef).map _]).set
        h.attObjects.length _).getD h.attRef []
      = h.attObjects.getD h.attRef []
    rw [List.getD_eq_getElem?_getD, List.getD_eq_getElem?_getD,
      List.getElem?_set_ne (Nat.ne_of_gt ha), List.getElem?_append,
      if_pos ha]

/-- C10 witness: a heap with one internal object per table. -/
theorem table_accessors_return_copies_witness :
    readDptObject
        (mutateDptObject
          (getDirtyPageTable
            { dptObjects := [[(1, 2)]], attObjects := [[]],
              dptRef := 0, attRef := 0 }).1
          (getDirtyPageTable
            { dptObjects := [[(1, 2)]], attObjects := [[]],
              dptRef := 0, attRef := 0 }).2
          (fun _ => [(9, 9)])) 0
      = readDptObject
          { dptObjects := [[(1, 2)]], attObjects := [[]],
            dptRef := 0, attRef := 0 } 0
    ∧ readAttObject
        (mutateAttObject
          (getTransactionTable
            { dptObjects := [[(1, 2)]], attObjects := [[]],
              dptRef := 0, attRef := 0 }).1
          (getTransactionTable
            { dptObjects := [[(1, 2)]], attObjects := [[]],
              dptRef := 0, attRef := 0 }).2
          (fun _ => [])) 0
      = readAttObject
          { dptObjects := [[(1, 2)]], attObjects := [[]],
            dptRef := 0, attRef := 0 } 0 :=
  table_accessors_return_copies
    { dptObjects := [[(1, 2)]], attObjects := [[]],
      dptRef := 0, attRef := 0 }
    (by decide) (by decide) (fun _ => [(9, 9)]) (fun _ => [])

end StoreMy
